import Mathlib

/-!
Verification development for the shelf-life analysis core of `src/app.py`.

The algorithmic core of the repository operates on per-attribute time series
of quality measurements: `calculate_projections` fits a short-window linear
trend and projects the month at which an attribute crosses a threshold,
`generate_qa_summary` aggregates per-attribute projections and change rates,
`parse_sample_name` normalises storage-duration labels to months, and
`create_composite_quality_index` builds a clamped confidence band around a
composite quality score.

The embedding below models the numeric computations over `ℚ` (the Python code
uses IEEE floats; all claims here concern exact algebraic behaviour, and the
`ℚ` model mirrors the arithmetic expressions of the source verbatim).
Character classification (`str.isdigit`, `str.isalpha`) is modelled on the
ASCII range, which covers every label format the source handles ("01D-RO",
"02W-RO", "01M-RO", ...).
-/

namespace ShelfLife

/-- One measurement row of the grouped sensory table
`(Test description, Time_Months, Actual result)`. -/
abbrev Row := String × ℚ × ℚ

/-- Last element of a list with a default, modelling `iloc[-1]` / `x_values[-1]`. -/
def lastElem {α : Type} : List α → α → α
  | [], d => d
  | [a], _ => a
  | _ :: b :: t, d => lastElem (b :: t) d

/-- Last `n` elements of a list, modelling `DataFrame.tail(n)`. -/
def lastN {α : Type} (n : ℕ) (l : List α) : List α := l.drop (l.length - n)

/-- Insert an observation into a time-sorted list, keeping earlier rows first
on ties (within one attribute the grouped table has unique times, so tie order
never matters for the functions below). -/
def insertTime (p : ℚ × ℚ) : List (ℚ × ℚ) → List (ℚ × ℚ)
  | [] => [p]
  | q :: rest => if q.1 < p.1 then q :: insertTime p rest else p :: q :: rest

/-- Sort observations by their time coordinate, modelling
`group.sort_values(time_col)` on `(Time_Months, Actual result)` pairs. -/
def sortByTime : List (ℚ × ℚ) → List (ℚ × ℚ)
  | [] => []
  | p :: rest => insertTime p (sortByTime rest)

/-- Round a rational to the nearest integer, ties to even — the rounding used
by Python's built-in `round`. -/
def roundHalfEven (q : ℚ) : ℤ :=
  let n := ⌊q⌋
  let f := q - n
  if f < 1 / 2 then n
  else if 1 / 2 < f then n + 1
  else if n % 2 = 0 then n else n + 1

/-- Round to one decimal place, modelling `round(x, 1)` in the source. -/
def round1 (q : ℚ) : ℚ := (roundHalfEven (10 * q) : ℚ) / 10

/-- Mean of the time coordinates of a window. -/
def xbar (l : List (ℚ × ℚ)) : ℚ := (l.map Prod.fst).sum / l.length

/-- Mean of the value coordinates of a window. -/
def ybar (l : List (ℚ × ℚ)) : ℚ := (l.map Prod.snd).sum / l.length

/-- Centered sum of squares of the times of a window. -/
def sxx (l : List (ℚ × ℚ)) : ℚ :=
  (l.map (fun p => (p.1 - xbar l) * (p.1 - xbar l))).sum

/-- Centered cross moment of times and values of a window. -/
def sxy (l : List (ℚ × ℚ)) : ℚ :=
  (l.map (fun p => (p.1 - xbar l) * (p.2 - ybar l))).sum

/-- Least-squares slope of the degree-1 fit, the closed form of
`np.polyfit(x_values, y_values, 1)` when the times are not all equal
(the source guards that case via `len(set(x_values)) < 2`). -/
def fitSlope (l : List (ℚ × ℚ)) : ℚ := sxy l / sxx l

/-- Least-squares intercept of the degree-1 fit of `np.polyfit(x_values, y_values, 1)`. -/
def fitIntercept (l : List (ℚ × ℚ)) : ℚ := ybar l - fitSlope l * xbar l

/-- Per-attribute result of `calculate_projections`: the source uses the string
sentinels "Không đủ dữ liệu", "Không xác định (xu hướng đi ngang hoặc giảm)",
"Đã vượt ngưỡng", "Lỗi khi tính toán", or a rounded number. -/
inductive Projection where
  | insufficientData
  | noThresholdApproach
  | alreadyExceeded
  | computationFailed
  | crossingMonth (m : ℚ)
deriving DecidableEq

/-- Fitting window of an attribute: the last up-to-3 observations by time,
modelling `group.sort_values(time_col).tail(3)` (lines 144-145 of src/app.py). -/
def recentWindow (obs : List (ℚ × ℚ)) : List (ℚ × ℚ) := lastN 3 (sortByTime obs)

/-- Projection of one attribute, modelling the body of the
`for test, group in df.groupby(test_col)` loop of `calculate_projections`
(src/app.py lines 138-181) on that attribute's `(Time_Months, Actual result)`
rows.  The number of distinct window times is `(window.map Prod.fst).dedup.length`,
the model of `len(set(x_values))`; `lastElem window (0, 0)` is
`(x_values[-1], y_values[-1])`.  The `except` branch producing
"Lỗi khi tính toán" is unreachable in the exact-arithmetic model, since the
guarded `np.polyfit` call cannot fail once the window has two distinct times. -/
def projectAttr (obs : List (ℚ × ℚ)) (T : ℚ) : Projection :=
  if obs.length < 2 then Projection.insufficientData
  else
    let recent := recentWindow obs
    if recent.length < 2 then Projection.insufficientData
    else if ((recent.map Prod.fst).dedup).length < 2 then Projection.insufficientData
    else
      let slope := fitSlope recent
      let intercept := fitIntercept recent
      let lastY := (lastElem recent (0, 0)).2
      if slope ≤ 0 then Projection.noThresholdApproach
      else if T ≤ lastY then Projection.alreadyExceeded
      else Projection.crossingMonth (round1 ((T - intercept) / slope))

/-- Value of a digit string, the exact value of `float(num_str)` for a
nonempty string of ASCII digit characters. -/
def digitsToNat (cs : List Char) : ℕ :=
  cs.foldl (fun acc c => 10 * acc + (c.toNat - 48)) 0

/-- Semantics of the four character-level primitives `parse_sample_name`
relies on.  Python's `str.isdigit`, `str.isalpha`, `str.upper` and `float`
consult the Unicode character database: `isdigit` accepts every
Numeric_Type=Digit/Decimal character (also '²' or fullwidth '１'), `isalpha`
every Unicode letter, `upper` maps a string through per-character full case
mappings (possibly length-changing), and `float` on a string of
isdigit-characters succeeds exactly when all of them are decimal digits —
`float("1²")` raises (caught as `None` by the source) while `float("１")` is
`1.0`; `float("")` raises as well.  The embedding abstracts these four as
fields, so the theorems below hold for the actual Python tables; `asciiSem`
is their restriction to ASCII strings. -/
structure CharSem where
  isDigit : Char → Bool
  isAlpha : Char → Bool
  upperStr : List Char → List Char
  floatOfDigits : List Char → Option ℚ

/-- Model of `parse_sample_name` (src/app.py lines 256-277) for a given
character semantics. `sample_name.split('-')[0]` is the prefix before the
first '-', the digit and alphabetic characters of that prefix are gathered by
the two `filter` calls, `float(num_str)` raising (caught as `None`) is the
`floatOfDigits = none` case — which covers the empty digit string and
non-decimal digit characters — and the unit comparison happens on the
uppercased joined letters.  A non-string argument raises `AttributeError` in
the source and is likewise caught as `None`; the typed model takes strings
only. -/
def parse_sample_name (cs : CharSem) (s : String) : Option ℚ :=
  let part := s.data.takeWhile (fun c => c ≠ '-')
  let numStr := part.filter cs.isDigit
  let unit := cs.upperStr (part.filter cs.isAlpha)
  match cs.floatOfDigits numStr with
  | none => none
  | some num =>
    if unit = ['D'] then some (num / 30)
    else if unit = ['W'] then some (num / (869 / 200))
    else if unit = ['M'] then some num
    else none

/-- Single-pass gathering of the digit characters and the alphabetic
characters of a label prefix, the reading of the amended C4 claim: magnitude
digits and unit letters are collected from anywhere in the prefix, in order,
independent of their position. -/
def gatherDU (cs : CharSem) : List Char → List Char × List Char
  | [] => ([], [])
  | c :: rest =>
    let r := gatherDU cs rest
    (if cs.isDigit c then c :: r.1 else r.1,
     if cs.isAlpha c then c :: r.2 else r.2)

/-- Sample-name normalisation as the amended claim words it: gather digits
and letters from anywhere in the prefix before the first '-', fail to the
absent result when the numeric conversion of the gathered digits fails, and
otherwise convert by the uppercased unit (D: divide by 30, W: divide by
4.345, M: unchanged), with an unrecognised unit giving the absent result. -/
def parseGathered (cs : CharSem) (s : String) : Option ℚ :=
  let r := gatherDU cs (s.data.takeWhile (fun c => c ≠ '-'))
  match cs.floatOfDigits r.1 with
  | none => none
  | some num =>
    if cs.upperStr r.2 = ['D'] then some (num / 30)
    else if cs.upperStr r.2 = ['W'] then some (num / (869 / 200))
    else if cs.upperStr r.2 = ['M'] then some num
    else none

/-- Restriction of the Python character primitives to ASCII strings: below
U+0080, `str.isdigit` and `str.isalpha` coincide with `Char.isDigit` and
`Char.isAlpha`, `str.upper` is the per-character ASCII uppercase map, and
`float` on a gathered digit string succeeds exactly when it is nonempty
(every ASCII character accepted by `Char.isDigit` is a decimal digit), with
the value `digitsToNat`; `float("")` raises, hence `none` on the empty list.
Python and this instance agree on every label whose characters are ASCII,
such as "01D-RO", "02W-RO", "01M" or "1M0". -/
def asciiSem : CharSem where
  isDigit := Char.isDigit
  isAlpha := Char.isAlpha
  upperStr := fun l => l.map Char.toUpper
  floatOfDigits := fun l => if l.isEmpty then none else some ((digitsToNat l : ℚ))

/-- Numeric crossing months among the projection map values, modelling the
`isinstance(val, (int, float))` filter of src/app.py lines 200-206. -/
def crossingValues (projs : List (String × Projection)) : List ℚ :=
  projs.filterMap (fun p =>
    match p.2 with
    | Projection.crossingMonth m => some m
    | _ => none)

/-- Minimum shelf life, modelling
`min(shelf_life_values) if shelf_life_values else "Không xác định"`
(src/app.py line 208); `none` is the "Không xác định" sentinel. -/
def minShelfLife (projs : List (String × Projection)) : Option ℚ :=
  match crossingValues projs with
  | [] => none
  | v :: vs => some (vs.foldl min v)

/-- One step of the closest-to-threshold scan of src/app.py lines 218-225:
the accumulator is `(closest_attr, min_distance)`, with `none` standing for
the initial `float('inf')` distance. -/
def closestStep (T : ℚ) (s : Option String × Option ℚ) (p : String × ℚ) :
    Option String × Option ℚ :=
  if p.2 < T then
    match s.2 with
    | none => (some p.1, some (T - p.2))
    | some m => if T - p.2 < m then (some p.1, some (T - p.2)) else s
  else s

/-- The attribute whose latest value is closest below the threshold, modelling
the `for attr, value in latest_values.items()` loop of src/app.py
lines 218-225 over the latest-value association list. -/
def closest_attr (T : ℚ) (l : List (String × ℚ)) : Option String :=
  (l.foldl (closestStep T) (none, none)).1

/-- Selection rule for the critical attribute as the specification words it:
among the entries still below the threshold, pick the one minimising
`threshold − latestValue`, keeping the first encountered on ties; `none` when
no entry is below the threshold. -/
def criticalSpec (T : ℚ) : List (String × ℚ) → Option (String × ℚ)
  | [] => none
  | p :: rest =>
    if p.2 < T then
      match criticalSpec T rest with
      | none => some p
      | some q => if T - q.2 < T - p.2 then some q else some p
    else criticalSpec T rest

/-- One comparison step of Python's `max(..., key=lambda x: x[1])`, which
replaces the current best only on a strictly larger key, so the first
maximal entry wins ties. -/
def maxStep (best q : String × ℚ) : String × ℚ :=
  if best.2 < q.2 then q else best

/-- The fastest-changing attribute, modelling
`max(change_rates.items(), key=lambda x: x[1])[0] if change_rates else None`
(src/app.py line 242). -/
def fastest_attr : List (String × ℚ) → Option String
  | [] => none
  | p :: rest => some (rest.foldl maxStep p).1

/-- Change rate of one attribute, modelling src/app.py lines 230-240: with at
least 3 rows, sort by time, take the last 3, and form the secant slope of the
window endpoints when `last_month > first_month`; otherwise no rate. -/
def change_rate (obs : List (ℚ × ℚ)) : Option ℚ :=
  if 3 ≤ obs.length then
    let w := recentWindow obs
    if (w.headD (0, 0)).1 < (lastElem w (0, 0)).1 then
      some (((lastElem w (0, 0)).2 - (w.headD (0, 0)).2) /
            ((lastElem w (0, 0)).1 - (w.headD (0, 0)).1))
    else none
  else none

/-- First-occurrence deduplication helper carrying the set of seen keys. -/
def firstDedupAux (seen : List String) : List String → List String
  | [] => []
  | k :: rest =>
    if k ∈ seen then firstDedupAux seen rest
    else k :: firstDedupAux (k :: seen) rest

/-- Attribute keys in first-appearance order, modelling
`sensory_grouped['Test description'].unique()`.  (pandas `groupby` iterates
keys in sorted order instead; every aggregate below is insensitive to key
order, so one order serves both.) -/
def firstDedup (l : List String) : List String := firstDedupAux [] l

/-- The `(Time_Months, Actual result)` observations of one attribute, in row
order, modelling the per-group rows of `df.groupby(test_col)` and of
`sensory_grouped[sensory_grouped['Test description'] == test]`. -/
def obsOf (rows : List Row) (k : String) : List (ℚ × ℚ) :=
  (rows.filter (fun r => r.1 = k)).map (fun r => r.2)

/-- Projection map of `calculate_projections` (src/app.py lines 121-183) over
the grouped sensory rows. -/
def calculate_projections (rows : List Row) (T : ℚ) : List (String × Projection) :=
  (firstDedup (rows.map (fun r => r.1))).map (fun k => (k, projectAttr (obsOf rows k) T))

/-- Latest observed value per attribute, modelling src/app.py lines 211-216:
for each attribute, the value of the time-sorted last row. -/
def latest_values (rows : List Row) : List (String × ℚ) :=
  (firstDedup (rows.map (fun r => r.1))).map
    (fun k => (k, (lastElem (sortByTime (obsOf rows k)) (0, 0)).2))

/-- Change-rate map of src/app.py lines 228-240: attributes with no rate are
absent from the map. -/
def change_rates (rows : List Row) : List (String × ℚ) :=
  (firstDedup (rows.map (fun r => r.1))).filterMap
    (fun k => (change_rate (obsOf rows k)).map (fun r => (k, r)))

/-- The summary dictionary returned by `generate_qa_summary`
(src/app.py lines 244-253). -/
structure QASummary where
  min_shelf_life : Option ℚ
  closestAttr : Option String
  closestAttrValue : Option ℚ
  fastestAttr : Option String
  projections : List (String × Projection)
  changeRates : List (String × ℚ)
  latestValues : List (String × ℚ)
deriving DecidableEq

/-- Model of `generate_qa_summary` (src/app.py lines 185-253): `None` for an
empty grouped table, otherwise the aggregate summary. -/
def generate_qa_summary (rows : List Row) (T : ℚ) : Option QASummary :=
  if rows.isEmpty then none
  else
    some
      { min_shelf_life := minShelfLife (calculate_projections rows T)
        closestAttr := closest_attr T (latest_values rows)
        closestAttrValue :=
          match closest_attr T (latest_values rows) with
          | none => none
          | some a => (latest_values rows).lookup a
        fastestAttr := fastest_attr (change_rates rows)
        projections := calculate_projections rows T
        changeRates := change_rates rows
        latestValues := latest_values rows }

/-- Status tier of the dashboard card (src/app.py lines 316-343). -/
inductive StatusTier where
  | critical
  | watch
  | stable
  | unknown
deriving DecidableEq

/-- Tier computation of `create_improved_dashboard` (src/app.py lines 316-343):
numeric `min_shelf_life` is compared against the latest observed month via
`remaining_months`, a non-numeric sentinel gives the grey "Chưa xác định" tier. -/
def statusTier (minShelf : Option ℚ) (currentMonth : ℚ) : StatusTier :=
  match minShelf with
  | some m =>
    let remaining := m - currentMonth
    if remaining ≤ 1 then StatusTier.critical
    else if remaining ≤ 3 then StatusTier.watch
    else StatusTier.stable
  | none => StatusTier.unknown

/-- Latest observed month, modelling `max(sensory_grouped["Time_Months"])`. -/
def maxTime (rows : List Row) : ℚ :=
  match rows.map (fun r => r.2.1) with
  | [] => 0
  | t :: ts => ts.foldl max t

/-- Distance-to-threshold percentage of one attribute value at one time point,
modelling `max(0, (threshold_value - row['Actual result']) / threshold_value * 100)`
(src/app.py lines 1030-1031). -/
def distancePct (T v : ℚ) : ℚ := max 0 ((T - v) / T * 100)

/-- Composite quality index of one time point, modelling
`quality_index = 100 - mean(distances)` (src/app.py lines 1035-1037). -/
def qualityIndex (T : ℚ) (vals : List ℚ) : ℚ :=
  100 - (vals.map (distancePct T)).sum / ((vals.map (distancePct T)).length : ℚ)

/-- Half-width of the confidence band,
`std_distance * (1.96 / np.sqrt(len(distances)))` of src/app.py lines 1047-1049.
The two square roots of the source (inside `np.std` and `np.sqrt(n)`) are
irrational, so the standard deviation and `√n` enter the model as parameters;
every property claimed of the band holds for arbitrary values of both. -/
def ciHalfWidth (stdDev sqrtN : ℚ) : ℚ := stdDev * (196 / 100) / sqrtN

/-- Upper band edge `quality_index + std_distance * ci_factor` (line 1048),
not clamped. -/
def upperBand (index stdDev sqrtN : ℚ) : ℚ := index + ciHalfWidth stdDev sqrtN

/-- Lower band edge `max(0, quality_index - std_distance * ci_factor)`
(line 1049), clamped at zero. -/
def lowerBand (index stdDev sqrtN : ℚ) : ℚ := max 0 (index - ciHalfWidth stdDev sqrtN)

/-! ### Support lemmas about the embedded operations -/

lemma insertTime_length (p : ℚ × ℚ) (l : List (ℚ × ℚ)) :
    (insertTime p l).length = l.length + 1 := by
  induction l with
  | nil => rfl
  | cons q rest ih =>
    by_cases h : q.1 < p.1
    · simp [insertTime, h, ih]
    · simp [insertTime, h]

lemma sortByTime_length (l : List (ℚ × ℚ)) : (sortByTime l).length = l.length := by
  induction l with
  | nil => rfl
  | cons p rest ih => simp [sortByTime, insertTime_length, ih]

lemma mem_insertTime {x p : ℚ × ℚ} {l : List (ℚ × ℚ)} :
    x ∈ insertTime p l ↔ x = p ∨ x ∈ l := by
  induction l with
  | nil => simp [insertTime]
  | cons q rest ih =>
    by_cases h : q.1 < p.1
    · simp only [insertTime, if_pos h, List.mem_cons, ih]
      tauto
    · simp only [insertTime, if_neg h, List.mem_cons]

lemma insertTime_sorted {p : ℚ × ℚ} {l : List (ℚ × ℚ)}
    (h : l.Pairwise (fun a b => a.1 ≤ b.1)) :
    (insertTime p l).Pairwise (fun a b => a.1 ≤ b.1) := by
  induction l with
  | nil => simp [insertTime]
  | cons q rest ih =>
    rw [List.pairwise_cons] at h
    by_cases hq : q.1 < p.1
    · rw [insertTime, if_pos hq, List.pairwise_cons]
      refine ⟨fun x hx => ?_, ih h.2⟩
      rcases mem_insertTime.mp hx with hx | hx
      · exact hx ▸ le_of_lt hq
      · exact h.1 x hx
    · rw [insertTime, if_neg hq, List.pairwise_cons]
      refine ⟨fun x hx => ?_, List.pairwise_cons.mpr h⟩
      rcases List.mem_cons.mp hx with hx | hx
      · exact hx ▸ le_of_not_lt hq
      · exact le_trans (le_of_not_lt hq) (h.1 x hx)

lemma sortByTime_sorted (l : List (ℚ × ℚ)) :
    (sortByTime l).Pairwise (fun a b => a.1 ≤ b.1) := by
  induction l with
  | nil => simp [sortByTime]
  | cons p rest ih => exact insertTime_sorted ih

lemma insertTime_front {p : ℚ × ℚ} {l : List (ℚ × ℚ)} (h : ∀ q ∈ l, p.1 ≤ q.1) :
    insertTime p l = p :: l := by
  cases l with
  | nil => rfl
  | cons q rest =>
    rw [insertTime, if_neg (not_lt.mpr (h q (List.mem_cons_self q rest)))]

lemma sortByTime_eq_self {l : List (ℚ × ℚ)} (h : l.Pairwise (fun a b => a.1 ≤ b.1)) :
    sortByTime l = l := by
  induction l with
  | nil => rfl
  | cons p rest ih =>
    rw [List.pairwise_cons] at h
    rw [sortByTime, ih h.2, insertTime_front h.1]

lemma lastElem_cons_cons {α : Type} (a b : α) (t : List α) (d : α) :
    lastElem (a :: b :: t) d = lastElem (b :: t) d := rfl

lemma lastElem_mem {α : Type} (l : List α) (d : α) (h : l ≠ []) : lastElem l d ∈ l := by
  induction l with
  | nil => exact absurd rfl h
  | cons a t ih =>
    cases t with
    | nil => simp [lastElem]
    | cons b t2 =>
      rw [lastElem_cons_cons]
      exact List.mem_cons_of_mem a (ih (List.cons_ne_nil b t2))

lemma lastElem_drop {α : Type} (l : List α) (k : ℕ) (d : α) (h : k < l.length) :
    lastElem (l.drop k) d = lastElem l d := by
  induction l generalizing k with
  | nil => simp at h
  | cons a t ih =>
    cases k with
    | zero => rfl
    | succ k2 =>
      have hk : k2 < t.length := by simpa using h
      have ht : t ≠ [] := by
        cases t with
        | nil => simp at hk
        | cons b t2 => exact List.cons_ne_nil b t2
      rw [List.drop_succ_cons, ih k2 hk]
      cases t with
      | nil => simp at hk
      | cons b t2 => rfl

lemma headD_le_lastElem {l : List (ℚ × ℚ)} {d : ℚ × ℚ}
    (h : l.Pairwise (fun a b => a.1 ≤ b.1)) : (l.headD d).1 ≤ (lastElem l d).1 := by
  cases l with
  | nil => exact le_refl _
  | cons a t =>
    cases t with
    | nil => exact le_refl _
    | cons b t2 =>
      rw [List.pairwise_cons] at h
      rw [lastElem_cons_cons]
      exact h.1 _ (lastElem_mem (b :: t2) d (List.cons_ne_nil b t2))

lemma lastN_length {α : Type} (n : ℕ) (l : List α) : (lastN n l).length = min n l.length := by
  rw [lastN, List.length_drop]
  omega

lemma lastN_sublist {α : Type} (n : ℕ) (l : List α) : (lastN n l).Sublist l :=
  List.drop_sublist _ _

lemma recentWindow_length (obs : List (ℚ × ℚ)) :
    (recentWindow obs).length = min 3 obs.length := by
  rw [recentWindow, lastN_length, sortByTime_length]

lemma recentWindow_sorted (obs : List (ℚ × ℚ)) :
    (recentWindow obs).Pairwise (fun a b => a.1 ≤ b.1) :=
  List.Pairwise.sublist (lastN_sublist 3 (sortByTime obs)) (sortByTime_sorted obs)

lemma foldl_min_mem (vs : List ℚ) (v : ℚ) : vs.foldl min v ∈ v :: vs := by
  induction vs generalizing v with
  | nil => simp
  | cons w ws ih =>
    rw [List.foldl_cons]
    rcases List.mem_cons.mp (ih (min v w)) with h | h
    · rcases min_choice v w with hm | hm
      · exact List.mem_cons.mpr (Or.inl (h.trans hm))
      · exact List.mem_cons.mpr (Or.inr (List.mem_cons.mpr (Or.inl (h.trans hm))))
    · exact List.mem_cons.mpr (Or.inr (List.mem_cons.mpr (Or.inr h)))

lemma foldl_min_le (vs : List ℚ) (v : ℚ) : ∀ x ∈ v :: vs, vs.foldl min v ≤ x := by
  induction vs generalizing v with
  | nil => intro x hx; rw [List.mem_singleton] at hx; simp [hx]
  | cons w ws ih =>
    intro x hx
    rw [List.foldl_cons]
    rcases List.mem_cons.mp hx with hx | hx
    · calc ws.foldl min (min v w) ≤ min v w :=
            ih (min v w) (min v w) (List.mem_cons_self _ _)
        _ ≤ x := hx ▸ min_le_left v w
    · rcases List.mem_cons.mp hx with hx | hx
      · calc ws.foldl min (min v w) ≤ min v w :=
              ih (min v w) (min v w) (List.mem_cons_self _ _)
          _ ≤ x := hx ▸ min_le_right v w
      · exact ih (min v w) x (List.mem_cons_of_mem _ hx)

lemma foldl_maxStep_mem (rest : List (String × ℚ)) (p : String × ℚ) :
    rest.foldl maxStep p ∈ p :: rest := by
  induction rest generalizing p with
  | nil => simp
  | cons q qs ih =>
    rw [List.foldl_cons]
    have hm : maxStep p q = p ∨ maxStep p q = q := by
      rw [maxStep]
      by_cases hc : p.2 < q.2
      · rw [if_pos hc]; exact Or.inr rfl
      · rw [if_neg hc]; exact Or.inl rfl
    rcases List.mem_cons.mp (ih (maxStep p q)) with h | h
    · rcases hm with hm | hm
      · exact List.mem_cons.mpr (Or.inl (h.trans hm))
      · exact List.mem_cons.mpr (Or.inr (List.mem_cons.mpr (Or.inl (h.trans hm))))
    · exact List.mem_cons.mpr (Or.inr (List.mem_cons.mpr (Or.inr h)))

lemma foldl_maxStep_le (rest : List (String × ℚ)) (p : String × ℚ) :
    ∀ x ∈ p :: rest, x.2 ≤ (rest.foldl maxStep p).2 := by
  induction rest generalizing p with
  | nil => intro x hx; rw [List.mem_singleton] at hx; simp [hx]
  | cons q qs ih =>
    intro x hx
    rw [List.foldl_cons]
    have hstep : p.2 ≤ (maxStep p q).2 ∧ q.2 ≤ (maxStep p q).2 := by
      rw [maxStep]
      by_cases hc : p.2 < q.2
      · rw [if_pos hc]; exact ⟨le_of_lt hc, le_refl _⟩
      · rw [if_neg hc]; exact ⟨le_refl _, le_of_not_lt hc⟩
    have hacc : (maxStep p q).2 ≤ (qs.foldl maxStep (maxStep p q)).2 :=
      ih (maxStep p q) (maxStep p q) (List.mem_cons_self _ _)
    rcases List.mem_cons.mp hx with hx | hx
    · exact le_trans (hx ▸ hstep.1) hacc
    · rcases List.mem_cons.mp hx with hx | hx
      · exact le_trans (hx ▸ hstep.2) hacc
      · exact ih (maxStep p q) x (List.mem_cons_of_mem _ hx)

lemma closest_foldl_from (T : ℚ) (l : List (String × ℚ)) (a : String) (d : ℚ) :
    l.foldl (closestStep T) (some a, some d) =
      match criticalSpec T l with
      | none => (some a, some d)
      | some q => if T - q.2 < d then (some q.1, some (T - q.2)) else (some a, some d) := by
  induction l generalizing a d with
  | nil => rfl
  | cons p rest ih =>
    rw [List.foldl_cons]
    by_cases hp : p.2 < T
    · by_cases hd : T - p.2 < d
      · have hstep : closestStep T (some a, some d) p = (some p.1, some (T - p.2)) := by
          rw [closestStep, if_pos hp]
          exact if_pos hd
        rw [hstep, ih]
        cases hcr : criticalSpec T rest with
        | none => simp [criticalSpec, hp, hcr, hd]
        | some q =>
          by_cases hq : T - q.2 < T - p.2
          · simp [criticalSpec, hp, hcr, hq, hd, lt_trans hq hd]
          · simp [criticalSpec, hp, hcr, hq, hd]
      · have hstep : closestStep T (some a, some d) p = (some a, some d) := by
          rw [closestStep, if_pos hp]
          exact if_neg hd
        rw [hstep, ih]
        cases hcr : criticalSpec T rest with
        | none => simp [criticalSpec, hp, hcr, hd]
        | some q =>
          by_cases hq : T - q.2 < T - p.2
          · simp [criticalSpec, hp, hcr, hq, hd]
          · have hqd : ¬ T - q.2 < d := by
              rw [not_lt] at hd hq ⊢
              exact le_trans hd hq
            simp [criticalSpec, hp, hcr, hq, hd, hqd]
    · have hstep : closestStep T (some a, some d) p = (some a, some d) := by
        rw [closestStep]
        exact if_neg hp
      rw [hstep, ih]
      cases hcr : criticalSpec T rest with
      | none => simp [criticalSpec, hp, hcr]
      | some q => simp [criticalSpec, hp, hcr]

lemma closest_foldl_start (T : ℚ) (l : List (String × ℚ)) :
    l.foldl (closestStep T) (none, none) =
      match criticalSpec T l with
      | none => (none, none)
      | some q => (some q.1, some (T - q.2)) := by
  induction l with
  | nil => rfl
  | cons p rest ih =>
    rw [List.foldl_cons]
    by_cases hp : p.2 < T
    · have hstep : closestStep T (none, none) p = (some p.1, some (T - p.2)) := by
        rw [closestStep, if_pos hp]
      rw [hstep, closest_foldl_from]
      cases hcr : criticalSpec T rest with
      | none => simp [criticalSpec, hp, hcr]
      | some q =>
        by_cases hq : T - q.2 < T - p.2
        · simp [criticalSpec, hp, hcr, hq]
        · simp [criticalSpec, hp, hcr, hq]
    · have hstep : closestStep T (none, none) p = (none, none) := by
        rw [closestStep]
        exact if_neg hp
      rw [hstep, ih]
      cases hcr : criticalSpec T rest with
      | none => simp [criticalSpec, hp, hcr]
      | some q => simp [criticalSpec, hp, hcr]

lemma criticalSpec_none_iff (T : ℚ) (l : List (String × ℚ)) :
    criticalSpec T l = none ↔ ∀ p ∈ l, T ≤ p.2 := by
  induction l with
  | nil => simp [criticalSpec]
  | cons p rest ih =>
    by_cases hp : p.2 < T
    · constructor
      · intro h
        rw [criticalSpec, if_pos hp] at h
        cases hcr : criticalSpec T rest with
        | none => rw [hcr] at h; exact absurd h (by simp)
        | some q => rw [hcr] at h; by_cases hq : T - q.2 < T - p.2 <;> simp [hq] at h
      · intro h
        exact absurd (h p (List.mem_cons_self p rest)) (not_le.mpr hp)
    · rw [criticalSpec, if_neg hp, ih, List.forall_mem_cons]
      simp [not_lt.mp hp]

lemma criticalSpec_some (T : ℚ) (l : List (String × ℚ)) (q : String × ℚ)
    (h : criticalSpec T l = some q) :
    q ∈ l ∧ q.2 < T ∧ ∀ p ∈ l, p.2 < T → T - q.2 ≤ T - p.2 := by
  induction l generalizing q with
  | nil => simp [criticalSpec] at h
  | cons p rest ih =>
    by_cases hp : p.2 < T
    · rw [criticalSpec, if_pos hp] at h
      cases hcr : criticalSpec T rest with
      | none =>
        rw [hcr] at h
        have hq : q = p := by simpa using h.symm
        subst hq
        refine ⟨List.mem_cons_self _ _, hp, fun x hx hxT => ?_⟩
        rcases List.mem_cons.mp hx with hx | hx
        · exact le_of_eq (by rw [hx])
        · exact absurd hxT (not_lt.mpr ((criticalSpec_none_iff T rest).mp hcr x hx))
      | some q2 =>
        rw [hcr] at h
        replace h : (if T - q2.2 < T - p.2 then some q2 else some p) = some q := h
        have hq2 := ih q2 hcr
        by_cases hcmp : T - q2.2 < T - p.2
        · rw [if_pos hcmp] at h
          have hq : q = q2 := by simpa using h.symm
          subst hq
          refine ⟨List.mem_cons_of_mem _ hq2.1, hq2.2.1, fun x hx hxT => ?_⟩
          rcases List.mem_cons.mp hx with hx | hx
          · exact hx ▸ le_of_lt hcmp
          · exact hq2.2.2 x hx hxT
        · rw [if_neg hcmp] at h
          have hq : q = p := by simpa using h.symm
          subst hq
          refine ⟨List.mem_cons_self _ _, hp, fun x hx hxT => ?_⟩
          rcases List.mem_cons.mp hx with hx | hx
          · exact le_of_eq (by rw [hx])
          · exact le_trans (not_lt.mp hcmp) (hq2.2.2 x hx hxT)
    · rw [criticalSpec, if_neg hp] at h
      have hq := ih q h
      refine ⟨List.mem_cons_of_mem _ hq.1, hq.2.1, fun x hx hxT => ?_⟩
      rcases List.mem_cons.mp hx with hx | hx
      · exact absurd hxT (hx ▸ hp)
      · exact hq.2.2 x hx hxT

lemma gatherDU_eq (cs : CharSem) (l : List Char) :
    gatherDU cs l = (l.filter cs.isDigit, l.filter cs.isAlpha) := by
  induction l with
  | nil => rfl
  | cons c rest ih =>
    rw [gatherDU, ih]
    by_cases hd : cs.isDigit c <;> by_cases ha : cs.isAlpha c <;>
      simp [List.filter_cons, hd, ha]

/-! ### Claim theorems -/

/-- C1 (counterexample): the window (1,8),(2,7.5),(3,7) with threshold 6.5 is
non-degenerate (3 points, 3 distinct times) and its most recent value 7 meets
the threshold, yet `calculate_projections` returns the NoThresholdApproach
sentinel, not AlreadyExceeded, because the `slope <= 0` test fires first. -/
theorem c1_counterexample :
    2 ≤ ([((1:ℚ),(8:ℚ)), (2, 15/2), (3, 7)] : List (ℚ × ℚ)).length ∧
    2 ≤ (((recentWindow [((1:ℚ),(8:ℚ)), (2, 15/2), (3, 7)]).map Prod.fst).dedup).length ∧
    (13/2 : ℚ) ≤ (lastElem (recentWindow [((1:ℚ),(8:ℚ)), (2, 15/2), (3, 7)]) (0, 0)).2 ∧
    projectAttr [((1:ℚ),(8:ℚ)), (2, 15/2), (3, 7)] (13/2) = Projection.noThresholdApproach := by
  norm_num [projectAttr, recentWindow, lastN, sortByTime, insertTime, fitSlope, fitIntercept,
    sxy, sxx, xbar, ybar, lastElem, List.dedup_cons_of_mem, List.dedup_cons_of_not_mem]

/-- C1 (amended): on a non-degenerate window, AlreadyExceeded is returned for
a latest value at or above the threshold only when the fitted slope is
strictly positive; with slope at most zero the projection is
NoThresholdApproach even though the latest value already meets the threshold. -/
theorem c1_amended (obs : List (ℚ × ℚ)) (T : ℚ)
    (h2 : 2 ≤ obs.length)
    (hdistinct : 2 ≤ (((recentWindow obs).map Prod.fst).dedup).length)
    (hlast : T ≤ (lastElem (recentWindow obs) (0, 0)).2) :
    (0 < fitSlope (recentWindow obs) → projectAttr obs T = Projection.alreadyExceeded) ∧
    (fitSlope (recentWindow obs) ≤ 0 → projectAttr obs T = Projection.noThresholdApproach) := by
  have hlen : ¬ obs.length < 2 := by omega
  have hrl : ¬ (recentWindow obs).length < 2 := by
    have := recentWindow_length obs
    omega
  have hdl : ¬ (((recentWindow obs).map Prod.fst).dedup).length < 2 := by omega
  constructor
  · intro hs
    rw [projectAttr, if_neg hlen, if_neg hrl, if_neg hdl, if_neg (not_le.mpr hs), if_pos hlast]
  · intro hs
    rw [projectAttr, if_neg hlen, if_neg hrl, if_neg hdl, if_pos hs]

/-- C1 (witness): a rising window whose latest value 7 exceeds the threshold
6.5 is classified AlreadyExceeded. -/
theorem c1_witness :
    projectAttr [((1:ℚ),(6:ℚ)), (2, 13/2), (3, 7)] (13/2) = Projection.alreadyExceeded :=
  (c1_amended [((1:ℚ),(6:ℚ)), (2, 13/2), (3, 7)] (13/2)
    (by norm_num)
    (by norm_num [recentWindow, lastN, sortByTime, insertTime,
      List.dedup_cons_of_mem, List.dedup_cons_of_not_mem])
    (by norm_num [recentWindow, lastN, sortByTime, insertTime, lastElem])).1
    (by norm_num [fitSlope, sxy, sxx, xbar, ybar, recentWindow, lastN, sortByTime, insertTime])

/-- C2 (counterexample): the series (1,0),(2,10),(3,10.5) has strictly
increasing times and values, all values strictly below the threshold 11, and a
strictly positive fitted slope on the 3-point window, yet the returned
crossing month 2.8 is strictly smaller than the latest observed month 3: the
window fit overshoots the last observation, so the fitted line crosses the
threshold before the latest month. -/
theorem c2_counterexample :
    (1:ℚ) < 2 ∧ (2:ℚ) < 3 ∧
    (0:ℚ) < 10 ∧ (10:ℚ) < 21/2 ∧
    (0:ℚ) < 11 ∧ (10:ℚ) < 11 ∧ (21/2:ℚ) < 11 ∧
    0 < fitSlope (recentWindow [((1:ℚ),(0:ℚ)), (2, 10), (3, 21/2)]) ∧
    projectAttr [((1:ℚ),(0:ℚ)), (2, 10), (3, 21/2)] 11 = Projection.crossingMonth (14/5) ∧
    (14/5 : ℚ) < 3 := by
  norm_num [projectAttr, recentWindow, lastN, sortByTime, insertTime, fitSlope, fitIntercept,
    sxy, sxx, xbar, ybar, lastElem, round1, roundHalfEven, Int.floor_eq_iff,
    List.dedup_cons_of_mem, List.dedup_cons_of_not_mem]

/-- C2 (amended): for a strictly increasing series below the threshold whose
window fit has strictly positive slope, the exact crossing month
(threshold − intercept) / slope is strictly greater than the latest observed
month provided the fitted value of the window line at the latest month is
still strictly below the threshold (the returned value is that quotient
rounded to one decimal). -/
theorem c2_amended (obs : List (ℚ × ℚ)) (T : ℚ)
    (h2 : 2 ≤ obs.length)
    (htimes : obs.Pairwise (fun p q => p.1 < q.1))
    (_hvalues : obs.Pairwise (fun p q => p.2 < q.2))
    (hbelow : ∀ p ∈ obs, p.2 < T)
    (hslope : 0 < fitSlope (recentWindow obs))
    (hfit : fitIntercept (recentWindow obs) +
      fitSlope (recentWindow obs) * (lastElem obs (0, 0)).1 < T) :
    projectAttr obs T = Projection.crossingMonth
      (round1 ((T - fitIntercept (recentWindow obs)) / fitSlope (recentWindow obs))) ∧
    (lastElem obs (0, 0)).1 <
      (T - fitIntercept (recentWindow obs)) / fitSlope (recentWindow obs) := by
  have hsort : sortByTime obs = obs :=
    sortByTime_eq_self (htimes.imp (fun h => le_of_lt h))
  have hw : recentWindow obs = lastN 3 obs := by rw [recentWindow, hsort]
  have hwlen : (recentWindow obs).length = min 3 obs.length := recentWindow_length obs
  have hlen : ¬ obs.length < 2 := by omega
  have hrl : ¬ (recentWindow obs).length < 2 := by omega
  have hwt : (recentWindow obs).Pairwise (fun p q => p.1 < q.1) := by
    rw [hw]
    exact List.Pairwise.sublist (lastN_sublist 3 obs) htimes
  have hnodup : ((recentWindow obs).map Prod.fst).Nodup :=
    List.pairwise_map.mpr (hwt.imp (fun h => ne_of_lt h))
  have hdl : ¬ (((recentWindow obs).map Prod.fst).dedup).length < 2 := by
    rw [List.dedup_eq_self.mpr hnodup, List.length_map]
    omega
  have hwne : recentWindow obs ≠ [] := by
    intro hnil
    rw [hnil] at hwlen
    simp at hwlen
    omega
  have hle : lastElem (recentWindow obs) (0, 0) = lastElem obs (0, 0) := by
    rw [hw, lastN]
    exact lastElem_drop obs (obs.length - 3) (0, 0) (by omega)
  have hlastY : (lastElem (recentWindow obs) (0, 0)).2 < T := by
    refine hbelow _ ?_
    have hsub : recentWindow obs ⊆ obs := by
      rw [hw]
      exact (lastN_sublist 3 obs).subset
    exact hsub (lastElem_mem (recentWindow obs) (0, 0) hwne)
  constructor
  · rw [projectAttr, if_neg hlen, if_neg hrl, if_neg hdl,
      if_neg (not_le.mpr hslope), if_neg (not_le.mpr hlastY)]
  · rw [lt_div_iff₀ hslope]
    have hcomm : (lastElem obs (0, 0)).1 * fitSlope (recentWindow obs) =
        fitSlope (recentWindow obs) * (lastElem obs (0, 0)).1 := mul_comm _ _
    linarith

/-- C2 (witness): for the rising series (1,5),(2,5.5),(3,6) with threshold
6.5 the claim applies, and the exact crossing month 4 lies strictly after the
latest observed month 3. -/
theorem c2_witness :
    projectAttr [((1:ℚ),(5:ℚ)), (2, 11/2), (3, 6)] (13/2) = Projection.crossingMonth
      (round1 ((13/2 - fitIntercept (recentWindow [((1:ℚ),(5:ℚ)), (2, 11/2), (3, 6)])) /
        fitSlope (recentWindow [((1:ℚ),(5:ℚ)), (2, 11/2), (3, 6)]))) ∧
    (lastElem [((1:ℚ),(5:ℚ)), (2, 11/2), (3, 6)] (0, 0)).1 <
      (13/2 - fitIntercept (recentWindow [((1:ℚ),(5:ℚ)), (2, 11/2), (3, 6)])) /
        fitSlope (recentWindow [((1:ℚ),(5:ℚ)), (2, 11/2), (3, 6)]) :=
  c2_amended [((1:ℚ),(5:ℚ)), (2, 11/2), (3, 6)] (13/2)
    (by norm_num)
    (by norm_num [List.pairwise_cons])
    (by norm_num [List.pairwise_cons])
    (by norm_num [List.forall_mem_cons])
    (by norm_num [fitSlope, sxy, sxx, xbar, ybar, recentWindow, lastN, sortByTime, insertTime])
    (by norm_num [fitSlope, fitIntercept, sxy, sxx, xbar, ybar, recentWindow, lastN,
      sortByTime, insertTime, lastElem])

/-- C3 (confirmed): on observations (1,5.0),(2,5.5),(3,6.0) with threshold
6.5, the window fit has slope 0.5 and intercept 4.5, and the projection is
the numeric crossing month (6.5 − 4.5) / 0.5 = 4.0 rounded to one decimal. -/
theorem c3_scenario_a :
    fitSlope (recentWindow [((1:ℚ),(5:ℚ)), (2, 11/2), (3, 6)]) = 1/2 ∧
    fitIntercept (recentWindow [((1:ℚ),(5:ℚ)), (2, 11/2), (3, 6)]) = 9/2 ∧
    round1 ((13/2 - 9/2) / (1/2)) = 4 ∧
    projectAttr [((1:ℚ),(5:ℚ)), (2, 11/2), (3, 6)] (13/2) = Projection.crossingMonth 4 := by
  norm_num [projectAttr, recentWindow, lastN, sortByTime, insertTime, fitSlope, fitIntercept,
    sxy, sxx, xbar, ybar, lastElem, round1, roundHalfEven, Int.floor_eq_iff,
    List.dedup_cons_of_mem, List.dedup_cons_of_not_mem]

/-- C4 (counterexample): the all-ASCII label "1M0" has leading digits "1" and
unit letter M, so under the claim it would either normalise to 1 month or be
rejected as malformed; the code instead gathers the digits from the whole
prefix and returns 10 months (on ASCII characters the Python primitives
coincide with `asciiSem`). -/
theorem c4_counterexample : parse_sample_name asciiSem "1M0" = some 10 := by
  norm_num +decide [parse_sample_name, asciiSem, List.takeWhile_cons, List.filter_cons,
    show digitsToNat ['1', '0'] = 10 from rfl]

/-- C4 (amended): for every string and every semantics of the four character
primitives — in particular Python's Unicode tables — the normaliser returns a
value without raising, and it equals the position-independent reading: all
digit characters of the part before the first '-' (in order) form the
magnitude string and all alphabetic characters (in order, uppercased as a
string) form the unit; a failing numeric conversion of the magnitude string
(empty, or digits `float` rejects) gives the absent result, and otherwise D
maps to n/30, W to n/4.345, M to n, with any other unit absent. -/
theorem c4_amended (cs : CharSem) (s : String) :
    parse_sample_name cs s = parseGathered cs s := by
  rw [parse_sample_name, parseGathered, gatherDU_eq]

/-- C4 (witness): the two readings agree on the ordinary label "02W-RO" under
the ASCII instance of the primitives. -/
theorem c4_witness : parse_sample_name asciiSem "02W-RO" = parseGathered asciiSem "02W-RO" :=
  c4_amended asciiSem "02W-RO"

/-- C5 (confirmed): the minimum shelf life is the minimum of exactly the
numeric CrossingMonth projections — the sentinel variants are excluded — and
it is the absent (Unknown) sentinel precisely when no attribute produced a
numeric crossing. -/
theorem c5_min_shelf_life (projs : List (String × Projection)) :
    (minShelfLife projs = none ↔ ∀ p ∈ projs, ∀ m : ℚ, p.2 ≠ Projection.crossingMonth m) ∧
    (∀ m : ℚ, minShelfLife projs = some m →
      (∃ a : String, (a, Projection.crossingMonth m) ∈ projs) ∧
      (∀ p ∈ projs, ∀ v : ℚ, p.2 = Projection.crossingMonth v → m ≤ v)) := by
  have hnil : crossingValues projs = [] ↔
      ∀ p ∈ projs, ∀ m : ℚ, p.2 ≠ Projection.crossingMonth m := by
    rw [crossingValues, List.filterMap_eq_nil_iff]
    constructor
    · intro h p hp m hm
      have := h p hp
      rw [hm] at this
      simp at this
    · intro h p hp
      cases hpp : p.2 with
      | crossingMonth m => exact absurd hpp (h p hp m)
      | insufficientData => rfl
      | noThresholdApproach => rfl
      | alreadyExceeded => rfl
      | computationFailed => rfl
  have hmn : minShelfLife projs = none ↔ crossingValues projs = [] := by
    rw [minShelfLife]
    cases hcv : crossingValues projs with
    | nil => simp
    | cons v vs => simp
  constructor
  · exact hmn.trans hnil
  · intro m hm
    rw [minShelfLife] at hm
    cases hcv : crossingValues projs with
    | nil => rw [hcv] at hm; exact absurd hm (by simp)
    | cons v vs =>
      rw [hcv] at hm
      have hmin : vs.foldl min v = m := by simpa using hm
      constructor
      · have hmem : m ∈ crossingValues projs := by
          rw [hcv]
          exact hmin ▸ foldl_min_mem vs v
        rcases List.mem_filterMap.mp hmem with ⟨p, hp, hpm⟩
        refine ⟨p.1, ?_⟩
        cases hpp : p.2 with
        | crossingMonth m2 =>
          rw [hpp] at hpm
          have : m2 = m := by simpa using hpm
          have hpair : (p.1, Projection.crossingMonth m) = p := by
            rw [← this, ← hpp]
          exact hpair ▸ hp
        | insufficientData => rw [hpp] at hpm; simp at hpm
        | noThresholdApproach => rw [hpp] at hpm; simp at hpm
        | alreadyExceeded => rw [hpp] at hpm; simp at hpm
        | computationFailed => rw [hpp] at hpm; simp at hpm
      · intro p hp v2 hv2
        have hmem : v2 ∈ crossingValues projs :=
          List.mem_filterMap.mpr ⟨p, hp, by rw [hv2]⟩
        rw [hcv] at hmem
        exact hmin ▸ foldl_min_le vs v v2 hmem

/-- C5 (witness): in a map with crossings 6 and 4 and three sentinel entries,
some attribute carries the crossing value 4 computed as the minimum. -/
theorem c5_witness :
    ∃ a : String, (a, Projection.crossingMonth 4) ∈
      ([("a", Projection.insufficientData), ("b", Projection.crossingMonth 6),
        ("c", Projection.crossingMonth 4), ("d", Projection.alreadyExceeded),
        ("e", Projection.computationFailed)] : List (String × Projection)) :=
  ((c5_min_shelf_life [("a", Projection.insufficientData), ("b", Projection.crossingMonth 6),
      ("c", Projection.crossingMonth 4), ("d", Projection.alreadyExceeded),
      ("e", Projection.computationFailed)]).2 4
    (by norm_num [minShelfLife, crossingValues, List.filterMap_cons])).1

/-- C6 (confirmed): the code's closest-attribute scan equals the specified
selection: among attributes whose latest value is strictly below the
threshold it minimises threshold − latestValue with ties to the first
encountered, attributes at or above the threshold are never selected, and no
attribute is produced when none is below the threshold; the final conjunct
pins the first-encountered tie-break on a concrete tie. -/
theorem c6_critical_attribute :
    (∀ (T : ℚ) (l : List (String × ℚ)),
      closest_attr T l = (criticalSpec T l).map Prod.fst ∧
      (criticalSpec T l = none ↔ ∀ p ∈ l, T ≤ p.2) ∧
      (∀ q : String × ℚ, criticalSpec T l = some q →
        q ∈ l ∧ q.2 < T ∧ ∀ p ∈ l, p.2 < T → T - q.2 ≤ T - p.2)) ∧
    closest_attr 6 [("X", (5:ℚ)), ("Y", 5)] = some "X" := by
  constructor
  · intro T l
    refine ⟨?_, criticalSpec_none_iff T l, fun q => criticalSpec_some T l q⟩
    rw [closest_attr, closest_foldl_start]
    cases criticalSpec T l with
    | none => rfl
    | some q => rfl
  · norm_num [closest_attr, closestStep]

/-- C6 (witness): with latest values A ↦ 6, B ↦ 5, C ↦ 7 and threshold 6.5,
the selected pair ("A", 6) is below the threshold and minimises the distance
among the below-threshold attributes. -/
theorem c6_witness :
    ("A", (6:ℚ)) ∈ ([("A", (6:ℚ)), ("B", 5), ("C", 7)] : List (String × ℚ)) ∧
    (6:ℚ) < 13/2 ∧
    ∀ p ∈ ([("A", (6:ℚ)), ("B", 5), ("C", 7)] : List (String × ℚ)),
      p.2 < 13/2 → 13/2 - (("A", (6:ℚ)) : String × ℚ).2 ≤ 13/2 - p.2 :=
  (c6_critical_attribute.1 (13/2) [("A", (6:ℚ)), ("B", 5), ("C", 7)]).2.2 ("A", 6)
    (by norm_num [criticalSpec])

/-- C7 (confirmed): the fastest-changing attribute maximises the signed rate
(any returned attribute carries a rate at least every other rate in the map),
and on the map worsening ↦ +0.3, improving ↦ −0.5 the worsening attribute is
selected, not the larger-magnitude improving one. -/
theorem c7_fastest_attribute :
    (∀ (l : List (String × ℚ)) (a : String), fastest_attr l = some a →
      ∃ r : ℚ, (a, r) ∈ l ∧ ∀ p ∈ l, p.2 ≤ r) ∧
    fastest_attr [("worsen", (3:ℚ)/10), ("improve", -(1/2))] = some "worsen" := by
  constructor
  · intro l a ha
    cases l with
    | nil => exact absurd ha (by rw [fastest_attr]; simp)
    | cons p rest =>
      rw [fastest_attr] at ha
      have ha2 : (rest.foldl maxStep p).1 = a := by simpa using ha
      refine ⟨(rest.foldl maxStep p).2, ?_, ?_⟩
      · have := foldl_maxStep_mem rest p
        rw [← ha2]
        simpa using this
      · exact foldl_maxStep_le rest p
  · norm_num [fastest_attr, maxStep]

/-- C7 (witness): on the rate map A ↦ 0.25, B ↦ 0.25, C ↦ 0 the selected
attribute A carries a rate bounding every rate in the map. -/
theorem c7_witness :
    ∃ r : ℚ, ("A", r) ∈ ([("A", (1:ℚ)/4), ("B", 1/4), ("C", 0)] : List (String × ℚ)) ∧
      ∀ p ∈ ([("A", (1:ℚ)/4), ("B", 1/4), ("C", 0)] : List (String × ℚ)), p.2 ≤ r :=
  c7_fastest_attribute.1 [("A", (1:ℚ)/4), ("B", 1/4), ("C", 0)] "A"
    (by norm_num [fastest_attr, maxStep])

/-- C8 (confirmed): an attribute gets a change rate exactly when it has at
least 3 observations and the first and last times of the time-sorted
last-3-point window differ, and the rate is the secant slope over those
window endpoints; with fewer than 3 observations or equal endpoint times the
rate is absent. -/
theorem c8_change_rate (obs : List (ℚ × ℚ)) :
    (∀ r : ℚ, change_rate obs = some r ↔
      3 ≤ obs.length ∧
      ((recentWindow obs).headD (0, 0)).1 ≠ (lastElem (recentWindow obs) (0, 0)).1 ∧
      r = ((lastElem (recentWindow obs) (0, 0)).2 - ((recentWindow obs).headD (0, 0)).2) /
          ((lastElem (recentWindow obs) (0, 0)).1 - ((recentWindow obs).headD (0, 0)).1)) ∧
    (change_rate obs = none ↔
      obs.length < 3 ∨
      ((recentWindow obs).headD (0, 0)).1 = (lastElem (recentWindow obs) (0, 0)).1) := by
  have hfl : ((recentWindow obs).headD (0, 0)).1 ≤ (lastElem (recentWindow obs) (0, 0)).1 :=
    headD_le_lastElem (recentWindow_sorted obs)
  by_cases hlen : 3 ≤ obs.length
  · by_cases hlt : ((recentWindow obs).headD (0, 0)).1 < (lastElem (recentWindow obs) (0, 0)).1
    · have hcr : change_rate obs =
          some (((lastElem (recentWindow obs) (0, 0)).2 - ((recentWindow obs).headD (0, 0)).2) /
            ((lastElem (recentWindow obs) (0, 0)).1 - ((recentWindow obs).headD (0, 0)).1)) := by
        rw [change_rate, if_pos hlen, if_pos hlt]
      constructor
      · intro r
        rw [hcr]
        constructor
        · intro h
          exact ⟨hlen, ne_of_lt hlt, (Option.some.inj h).symm⟩
        · rintro ⟨-, -, hr⟩
          rw [hr]
      · rw [hcr]
        constructor
        · intro h
          exact absurd h (by simp)
        · rintro (h | h)
          · omega
          · exact absurd h (ne_of_lt hlt)
    · have heq : ((recentWindow obs).headD (0, 0)).1 = (lastElem (recentWindow obs) (0, 0)).1 :=
        le_antisymm hfl (not_lt.mp hlt)
      have hcr : change_rate obs = none := by
        rw [change_rate, if_pos hlen, if_neg hlt]
      constructor
      · intro r
        rw [hcr]
        constructor
        · intro h
          exact absurd h (by simp)
        · rintro ⟨-, hne, -⟩
          exact absurd heq hne
      · rw [hcr]
        exact ⟨fun _ => Or.inr heq, fun _ => rfl⟩
  · have hcr : change_rate obs = none := by
      rw [change_rate, if_neg hlen]
    constructor
    · intro r
      rw [hcr]
      constructor
      · intro h
        exact absurd h (by simp)
      · rintro ⟨h3, -, -⟩
        exact absurd h3 hlen
    · rw [hcr]
      exact ⟨fun _ => Or.inl (by omega), fun _ => rfl⟩

/-- C8 (witness): the series (0,5),(1,5.5),(2,6.2),(3,6.3) has 4 points and a
window (1,5.5),(2,6.2),(3,6.3) with distinct endpoint times, so its rate is
the secant (6.3 − 5.5)/(3 − 1) = 0.4. -/
theorem c8_witness :
    change_rate [((0:ℚ),(5:ℚ)), (1, 11/2), (2, 31/5), (3, 63/10)] = some (2/5) :=
  ((c8_change_rate [((0:ℚ),(5:ℚ)), (1, 11/2), (2, 31/5), (3, 63/10)]).1 (2/5)).mpr
    ⟨by norm_num,
     by norm_num [recentWindow, lastN, sortByTime, insertTime, lastElem],
     by norm_num [recentWindow, lastN, sortByTime, insertTime, lastElem]⟩

/-- C9 (counterexample): for the empty observation set `generate_qa_summary`
returns no summary at all (the source returns `None` at line 187-188), rather
than a summary carrying an Unknown status tier. -/
theorem c9_counterexample : generate_qa_summary ([] : List Row) (13/2) = none := rfl

/-- C9 (amended): for every nonempty observation set all of whose attributes
project to InsufficientData, the aggregation still produces a summary — it
does not fail — whose minimum shelf life is the absent (Unknown) sentinel and
whose status tier is Unknown; for the empty set the aggregator returns the
absent summary, likewise without failing. -/
theorem c9_amended (rows : List Row) (T : ℚ) (hne : rows ≠ [])
    (hins : ∀ k ∈ firstDedup (rows.map (fun r => r.1)),
      projectAttr (obsOf rows k) T = Projection.insufficientData) :
    ∃ s : QASummary, generate_qa_summary rows T = some s ∧
      s.min_shelf_life = none ∧
      statusTier s.min_shelf_life (maxTime rows) = StatusTier.unknown := by
  have hemp : ¬ rows.isEmpty = true := by
    cases rows with
    | nil => exact absurd rfl hne
    | cons a t => simp
  have hmin : minShelfLife (calculate_projections rows T) = none := by
    have hcv : crossingValues (calculate_projections rows T) = [] := by
      rw [crossingValues, List.filterMap_eq_nil_iff]
      intro p hp
      rw [calculate_projections] at hp
      rcases List.mem_map.mp hp with ⟨k, hk, hkp⟩
      rw [← hkp]
      simp only []
      rw [hins k hk]
    rw [minShelfLife, hcv]
  refine ⟨{ min_shelf_life := minShelfLife (calculate_projections rows T),
            closestAttr := closest_attr T (latest_values rows),
            closestAttrValue :=
              match closest_attr T (latest_values rows) with
              | none => none
              | some a => (latest_values rows).lookup a,
            fastestAttr := fastest_attr (change_rates rows),
            projections := calculate_projections rows T,
            changeRates := change_rates rows,
            latestValues := latest_values rows }, ?_, hmin, ?_⟩
  · rw [generate_qa_summary, if_neg hemp]
  · show statusTier (minShelfLife (calculate_projections rows T)) (maxTime rows) =
      StatusTier.unknown
    rw [hmin]
    rfl

/-- C9 (witness): a single-observation attribute projects to
InsufficientData, and the summary for it exists with an Unknown tier. -/
theorem c9_witness :
    ∃ s : QASummary, generate_qa_summary [("A", (1:ℚ), (5:ℚ))] (13/2) = some s ∧
      s.min_shelf_life = none ∧
      statusTier s.min_shelf_life (maxTime [("A", (1:ℚ), (5:ℚ))]) = StatusTier.unknown :=
  c9_amended [("A", (1:ℚ), (5:ℚ))] (13/2) (by simp)
    (by
      intro k hk
      have hfd : firstDedup (List.map (fun r => r.1) [("A", (1:ℚ), (5:ℚ))]) = ["A"] := rfl
      rw [hfd, List.mem_singleton] at hk
      subst hk
      norm_num [obsOf, projectAttr])

/-- C10 (confirmed): at every computed point the lower edge of the composite
quality confidence band is clamped to max(0, index − halfWidth) while the
upper edge index + halfWidth is not clamped, so the lower edge is never
negative and the band is strictly asymmetric around the index whenever the
unclamped lower value would be negative. -/
theorem c10_band_clamp (index stdDev sqrtN : ℚ) :
    0 ≤ lowerBand index stdDev sqrtN ∧
    upperBand index stdDev sqrtN - index = ciHalfWidth stdDev sqrtN ∧
    (index - ciHalfWidth stdDev sqrtN < 0 →
      index - lowerBand index stdDev sqrtN < upperBand index stdDev sqrtN - index) := by
  refine ⟨le_max_left 0 _, by rw [upperBand]; ring, fun h => ?_⟩
  have hzero : lowerBand index stdDev sqrtN = 0 := max_eq_left (le_of_lt h)
  rw [hzero, upperBand]
  linarith

/-- C10 (witness): with index 2, standard deviation 10 and √n = 1 the
unclamped lower edge would be negative, and the band is strictly asymmetric:
the distance down to the clamped lower edge is smaller than the distance up
to the upper edge. -/
theorem c10_witness : (2:ℚ) - lowerBand 2 10 1 < upperBand 2 10 1 - 2 :=
  (c10_band_clamp 2 10 1).2.2 (by norm_num [ciHalfWidth])

end ShelfLife
